import Mathlib

/-!
Verification development for `use-immer-observable` (`src/useImmerObservable.ts`,
final revision, lines 151-281 of the concatenated file).

The embedding models JavaScript objects with an explicit heap so that reference
identity, aliasing and in-place mutation are expressible:

* `JVal` is a primitive value or a reference (address) into a `Heap`.
* `structuredClone` is the fuel-bounded deep copy used by the set trap and by
  container construction; it allocates fresh addresses only.
* `produceAssign` is one immer `produce` transaction applying a single
  `target[path[0]]...[path[last]] = value` recipe: it rebuilds (freshly
  allocates) the nodes along the written path and shares every off-path
  subtree, exactly immer's copy-on-write discipline.
* `setTrap` / `mutationCallback` are the proxy `set` trap and the `onChange`
  callback wired in `proxyRef` (clone into the shadow target, then dispatch the
  raw value: root replacement / batch queue / immediate produce).
* `processBatch` and `setBatchUpdate` are direct translations.
* `batchScoped` models the scoped `batch(fn)` operation, which is absent from
  the sources (only tests and README exercise it); see its doc comment.
-/

/-- JavaScript-like runtime values: integer and string primitives, or a
reference to a heap object. -/
inductive JVal where
  | jint : Int → JVal
  | jstr : String → JVal
  | jref : Nat → JVal
deriving DecidableEq

/-- A heap of plain objects: association list from address to ordered field
list, plus the next fresh address. -/
structure Heap where
  mem : List (Nat × List (String × JVal))
  next : Nat
deriving DecidableEq

/-- First entry with the given address. -/
def memGet : List (Nat × List (String × JVal)) → Nat → Option (List (String × JVal))
  | [], _ => none
  | e :: rest, a => if e.1 == a then some e.2 else memGet rest a

def Heap.lookup (h : Heap) (a : Nat) : Option (List (String × JVal)) :=
  memGet h.mem a

/-- Replace the fields of the first entry with the given address (in-place
object mutation). -/
def setEntry : List (Nat × List (String × JVal)) → Nat → List (String × JVal) →
    List (Nat × List (String × JVal))
  | [], _, _ => []
  | e :: rest, a, fs => if e.1 == a then (a, fs) :: rest else e :: setEntry rest a fs

def Heap.setE (h : Heap) (a : Nat) (fs : List (String × JVal)) : Heap :=
  ⟨setEntry h.mem a fs, h.next⟩

/-- Property read on a field list. -/
def fieldGet : List (String × JVal) → String → Option JVal
  | [], _ => none
  | (k', v) :: rest, k => if k' == k then some v else fieldGet rest k

/-- Property write on a field list: overwrite in place, or append a new key at
the end (JavaScript insertion order). -/
def fieldSet : List (String × JVal) → String → JVal → List (String × JVal)
  | [], k, v => [(k, v)]
  | (k', v') :: rest, k, v =>
      if k' == k then (k', v) :: rest else (k', v') :: fieldSet rest k v

/-- Read a value by walking a key path (object property reads). -/
def lookupPath (h : Heap) : JVal → List String → Option JVal
  | v, [] => some v
  | JVal.jref a, k :: ks =>
      match h.lookup a with
      | some fs =>
          match fieldGet fs k with
          | some v' => lookupPath h v' ks
          | none => none
      | none => none
  | _, _ :: _ => none

mutual
/-- Fuel-bounded deep copy modelling `structuredClone`: primitives are
returned as-is, objects are copied bottom-up into fresh addresses.  `none`
models a `CloneFailure` (fuel exhaustion stands for non-cloneable input,
e.g. a cyclic graph). -/
def structuredClone : Nat → Heap → JVal → Option (Heap × JVal)
  | 0, _, _ => none
  | _ + 1, h, JVal.jint n => some (h, JVal.jint n)
  | _ + 1, h, JVal.jstr s => some (h, JVal.jstr s)
  | f + 1, h, JVal.jref a =>
      match h.lookup a with
      | none => none
      | some fs =>
          match structuredCloneFields f h fs with
          | none => none
          | some (h1, fs') =>
              some (⟨(h1.next, fs') :: h1.mem, h1.next + 1⟩, JVal.jref h1.next)

/-- Deep-copy every field value in order. -/
def structuredCloneFields : Nat → Heap → List (String × JVal) →
    Option (Heap × List (String × JVal))
  | 0, _, _ => none
  | _ + 1, h, [] => some (h, [])
  | f + 1, h, (k, v) :: rest =>
      match structuredClone f h v with
      | none => none
      | some (h1, v') =>
          match structuredCloneFields f h1 rest with
          | none => none
          | some (h2, rest') => some (h2, (k, v') :: rest')
end

/-- One immer `produce` transaction for a single mutation record
(`useImmerObservable.ts` lines 218-229 and the body of the `forEach` in
`processBatch`): traverse `draft` through all path segments but the last,
then assign the final key.  Copy-on-write: every node along the written path
is re-allocated at a fresh address, every off-path subtree is shared.
`none` models the `PatchPathFailure` thrown when an intermediate segment is
missing or not an object, or when the final target is not an object. -/
def produceAssign (h : Heap) : JVal → List String → JVal → Option (Heap × JVal)
  | JVal.jref a, [k], v =>
      match h.lookup a with
      | some fs => some (⟨(h.next, fieldSet fs k v) :: h.mem, h.next + 1⟩, JVal.jref h.next)
      | none => none
  | JVal.jref a, k :: k2 :: rest, v =>
      match h.lookup a with
      | some fs =>
          match fieldGet fs k with
          | some cv =>
              match produceAssign h cv (k2 :: rest) v with
              | some (h1, cv') =>
                  some (⟨(h1.next, fieldSet fs k cv') :: h1.mem, h1.next + 1⟩, JVal.jref h1.next)
              | none => none
          | none => none
      | none => none
  | _, _, _ => none

/-- In-place write on the shadow tree: walk the wrapper path from address `a`,
then set field `k` of the final object (the `target[key] = ...` assignment in
the set trap, line 190). -/
def shadowAssign (h : Heap) : Nat → List String → String → JVal → Option Heap
  | a, [], k, v =>
      match h.lookup a with
      | some fs => some (h.setE a (fieldSet fs k v))
      | none => none
  | a, s :: rest, k, v =>
      match h.lookup a with
      | some fs =>
          match fieldGet fs s with
          | some (JVal.jref b) => shadowAssign h b rest k v
          | _ => none
      | none => none

/-- Addresses of the objects visited while walking a wrapper path. -/
def walkAddrs (h : Heap) : Nat → List String → Option (List Nat)
  | a, [] => some [a]
  | a, s :: rest =>
      match h.lookup a with
      | some fs =>
          match fieldGet fs s with
          | some (JVal.jref b) =>
              match walkAddrs h b rest with
              | some l => some (a :: l)
              | none => none
          | _ => none
      | none => none

/-- External in-place mutation of a caller-owned object, used to model the
caller mutating an original value after passing it to the container. -/
def extMut (h : Heap) (a : Nat) (k : String) (v : JVal) : Heap :=
  match h.lookup a with
  | some fs => h.setE a (fieldSet fs k v)
  | none => h

/-- A queued mutation record: stripped path plus the assigned value
(`batchQueueRef` element type). -/
structure MutRecord where
  path : List String
  value : JVal
deriving DecidableEq

/-- Error taxonomy of the spec: clone failure, patch-path failure, and a
throwing user callback. -/
inductive ContErr where
  | cloneFail
  | pathFail
  | userFail
deriving DecidableEq

/-- One container instance: the heap, the shadow root address (the `{set: ...}`
object wrapped by the proxy), the published snapshot, the batch queue, the
batching flag and the wrapper-cache key set. -/
structure Container where
  heap : Heap
  shadowRoot : Nat
  state : JVal
  queue : List MutRecord
  batching : Bool
  cache : List Nat
deriving DecidableEq

def dummyContainer : Container :=
  ⟨⟨[], 0⟩, 0, JVal.jint 0, [], false, []⟩

/-- Strip the leading `set` segment (`path[0] === "set" ? path.slice(1) : path`,
line 203). -/
def stripSet : List String → List String
  | "set" :: rest => rest
  | p => p

/-- The `onChange` callback installed in `proxyRef` (lines 202-230): a path
empty after stripping is a root replacement (reset the wrapper cache, publish
the raw value synchronously, do not touch the queue); otherwise queue the
record while batching, or apply it immediately via one produce transaction. -/
def mutationCallback (c : Container) (p : List String) (v : JVal) :
    Container × Option ContErr :=
  let realPath := stripSet p
  if realPath.isEmpty then
    ({ c with cache := [], state := v }, none)
  else if c.batching then
    ({ c with queue := c.queue ++ [⟨realPath, v⟩] }, none)
  else
    match produceAssign c.heap c.state realPath v with
    | some r => ({ c with heap := r.1, state := r.2 }, none)
    | none => (c, some ContErr.pathFail)

/-- An intercepted property write through the proxy (set trap, lines 189-194):
store a structured clone of the value into the shadow target in place, then
fire the callback with the raw path and the raw (uncloned) value. -/
def setTrap (f : Nat) (c : Container) (wp : List String) (k : String) (v : JVal) :
    Container × Option ContErr :=
  match structuredClone f c.heap v with
  | none => (c, some ContErr.cloneFail)
  | some (h1, v') =>
      match shadowAssign h1 c.shadowRoot wp k v' with
      | none => ({ c with heap := h1 }, some ContErr.pathFail)
      | some h2 => mutationCallback { c with heap := h2 } (wp ++ [k]) v

def cacheAdd (l : List Nat) (a : Nat) : List Nat :=
  if l.contains a then l else l ++ [a]

/-- Reading a path through the proxy (get trap, lines 178-188): structured
children are wrapped and their wrappers cached; primitives are returned
directly. Returns the updated cache-key set and the value read. -/
def readAt (h : Heap) : Nat → List String → List Nat → List Nat × Option JVal
  | a, [], cache => (cache, some (JVal.jref a))
  | a, s :: rest, cache =>
      match h.lookup a with
      | some fs =>
          match fieldGet fs s with
          | some (JVal.jref b) => readAt h b rest (cacheAdd cache b)
          | some v => if rest.isEmpty then (cache, some v) else (cache, none)
          | none => (cache, none)
      | none => (cache, none)

def readThrough (c : Container) (p : List String) : Container × Option JVal :=
  let r := readAt c.heap c.shadowRoot p c.cache
  ({ c with cache := r.1 }, r.2)

/-- Container construction (lines 151-231): `useState(obj)` publishes the
caller's object itself; the shadow root `{set: structuredClone(obj)}` is
allocated and wrapped (its wrapper is the first cache entry). -/
def mkContainer (f : Nat) (h : Heap) (obj : JVal) (batchUpdate : Bool) :
    Option Container :=
  match structuredClone f h obj with
  | none => none
  | some (h1, obj') =>
      some { heap := ⟨(h1.next, [("set", obj')]) :: h1.mem, h1.next + 1⟩,
             shadowRoot := h1.next,
             state := obj,
             queue := [],
             batching := batchUpdate,
             cache := [h1.next] }

/-- Apply queued records in order inside one produce transaction (the
`forEach` in `processBatch`, lines 239-249).  Any failure aborts the whole
transaction (the draft is discarded). -/
def applyRecs : Heap → JVal → List MutRecord → Option (Heap × JVal)
  | h, s, [] => some (h, s)
  | h, s, r :: rs =>
      match produceAssign h s r.path r.value with
      | some p => applyRecs p.1 p.2 rs
      | none => none

/-- `processBatch` (lines 233-250): return immediately on an empty queue;
otherwise copy and clear the queue, then apply the copied records in one
produce transaction. -/
def processBatch (c : Container) : Container × Option ContErr :=
  if c.queue.isEmpty then (c, none)
  else
    match applyRecs c.heap c.state c.queue with
    | some p => ({ c with queue := [], heap := p.1, state := p.2 }, none)
    | none => ({ c with queue := [] }, some ContErr.pathFail)

/-- `setBatchUpdate` (lines 262-276): on an actual mode change store the new
flag and, when switching batching off, flush via `processBatch`. -/
def setBatchUpdate (c : Container) (b : Bool) : Container × Option ContErr :=
  if c.batching != b then
    let c1 := { c with batching := b }
    if b then (c1, none) else processBatch c1
  else (c, none)

/-- Caller actions performed inside a `batch` callback: intercepted property
writes and a thrown exception. -/
inductive Op where
  | fieldWrite (wp : List String) (k : String) (v : JVal)
  | throwErr
deriving DecidableEq

/-- Run a sequence of caller actions; the first error (a throw, a clone
failure or a patch failure) aborts the rest, as an exception would. -/
def runOps (f : Nat) : Container → List Op → Container × Option ContErr
  | c, [] => (c, none)
  | c, Op.throwErr :: _ => (c, some ContErr.userFail)
  | c, Op.fieldWrite wp k v :: rest =>
      match setTrap f c wp k v with
      | (c', none) => runOps f c' rest
      | (c', some e) => (c', some e)

/-- Modelled from the spec: the scoped `batch(fn)` operation is code of this
repository missing from src (only its tests and the README exercise it).
Per spec section 4.4: save the current mode and queue, force Batching with an
empty queue, invoke `fn`; if `fn` throws, restore the saved mode and queue
exactly and re-raise; if `fn` returns normally, flush the accumulated queue,
then restore the saved mode and queue. -/
def batchScoped (f : Nat) (c : Container) (ops : List Op) : Container × Option ContErr :=
  let savedMode := c.batching
  let savedQueue := c.queue
  match runOps f { c with batching := true, queue := [] } ops with
  | (c2, some e) => ({ c2 with batching := savedMode, queue := savedQueue }, some e)
  | (c2, none) =>
      let r := processBatch c2
      ({ r.1 with batching := savedMode, queue := savedQueue }, r.2)

/-- A value's top-level reference, if any, points below `n`. -/
def valOk (n : Nat) : JVal → Bool
  | JVal.jref a => decide (a < n)
  | _ => true

def fieldsOk : Nat → List (String × JVal) → Bool
  | _, [] => true
  | n, kv :: rest => valOk n kv.2 && fieldsOk n rest

def memOk : Nat → List (Nat × List (String × JVal)) → Bool
  | _, [] => true
  | n, e :: rest => (decide (e.1 < n) && fieldsOk n e.2) && memOk n rest

/-- Heap well-formedness: every allocated address and every stored reference
lies below the allocation counter. -/
def Heap.wfB (h : Heap) : Bool := memOk h.next h.mem

/-- `h'` extends `h`: nothing below `h.next` was changed and the counter only
grew (allocation-only evolution, as in a produce transaction or a clone). -/
def HExt (h h' : Heap) : Prop :=
  h.next ≤ h'.next ∧ ∀ a, a < h.next → h'.lookup a = h.lookup a

theorem HExt_refl (h : Heap) : HExt h h := ⟨le_refl _, fun _ _ => rfl⟩

theorem HExt_trans {h1 h2 h3 : Heap} (a : HExt h1 h2) (b : HExt h2 h3) : HExt h1 h3 :=
  ⟨le_trans a.1 b.1, fun x hx => (b.2 x (lt_of_lt_of_le hx a.1)).trans (a.2 x hx)⟩

theorem hext_cons (h : Heap) (fs : List (String × JVal)) :
    HExt h ⟨(h.next, fs) :: h.mem, h.next + 1⟩ := by
  refine ⟨Nat.le_succ _, fun a ha => ?_⟩
  have hne : (h.next == a) = false := by
    simp only [beq_eq_false_iff_ne]
    omega
  simp [Heap.lookup, memGet, hne]

theorem memGet_ok {n : Nat} {mem : List (Nat × List (String × JVal))} {a : Nat}
    {fs : List (String × JVal)} (hw : memOk n mem = true) (hg : memGet mem a = some fs) :
    a < n ∧ fieldsOk n fs = true := by
  induction mem with
  | nil => simp [memGet] at hg
  | cons e rest ih =>
      simp only [memOk, Bool.and_eq_true, decide_eq_true_eq] at hw
      rw [memGet] at hg
      split at hg
      · rename_i he
        cases hg
        have hea : e.1 = a := beq_iff_eq.mp he
        exact ⟨hea ▸ hw.1.1, hw.1.2⟩
      · exact ih hw.2 hg

theorem fieldGet_ok {n : Nat} {fs : List (String × JVal)} {k : String} {v : JVal}
    (hw : fieldsOk n fs = true) (hg : fieldGet fs k = some v) : valOk n v = true := by
  induction fs with
  | nil => simp [fieldGet] at hg
  | cons kv rest ih =>
      obtain ⟨k', v'⟩ := kv
      simp only [fieldsOk, Bool.and_eq_true] at hw
      rw [fieldGet] at hg
      split at hg
      · cases hg; exact hw.1
      · exact ih hw.2 hg

theorem valOk_mono {n m : Nat} (hnm : n ≤ m) {v : JVal} (hv : valOk n v = true) :
    valOk m v = true := by
  cases v with
  | jref a => simp only [valOk, decide_eq_true_eq] at hv ⊢; omega
  | jint x => rfl
  | jstr x => rfl

theorem fieldsOk_mono {n m : Nat} (hnm : n ≤ m) {fs : List (String × JVal)}
    (hf : fieldsOk n fs = true) : fieldsOk m fs = true := by
  induction fs with
  | nil => rfl
  | cons kv rest ih =>
      simp only [fieldsOk, Bool.and_eq_true] at hf ⊢
      exact ⟨valOk_mono hnm hf.1, ih hf.2⟩

theorem memOk_mono {n m : Nat} (hnm : n ≤ m) {mem : List (Nat × List (String × JVal))}
    (hw : memOk n mem = true) : memOk m mem = true := by
  induction mem with
  | nil => rfl
  | cons e rest ih =>
      simp only [memOk, Bool.and_eq_true, decide_eq_true_eq] at hw ⊢
      exact ⟨⟨by omega, fieldsOk_mono hnm hw.1.2⟩, ih hw.2⟩

theorem fieldGet_fieldSet_self (fs : List (String × JVal)) (k : String) (v : JVal) :
    fieldGet (fieldSet fs k v) k = some v := by
  induction fs with
  | nil => simp [fieldSet, fieldGet]
  | cons kv rest ih =>
      obtain ⟨k', v'⟩ := kv
      by_cases h : k' = k <;> simp [fieldSet, fieldGet, h, ih]

theorem fieldGet_fieldSet_other (fs : List (String × JVal)) {k k' : String}
    (hkk : k' ≠ k) (v : JVal) : fieldGet (fieldSet fs k v) k' = fieldGet fs k' := by
  have hk : ¬ k = k' := fun hh => hkk hh.symm
  induction fs with
  | nil => simp [fieldSet, fieldGet, hk]
  | cons kv rest ih =>
      obtain ⟨k0, v0⟩ := kv
      by_cases h : k0 = k
      · subst h
        simp [fieldSet, fieldGet, hk]
      · simp [fieldSet, fieldGet, h, ih]

theorem fieldsOk_fieldSet {n : Nat} {fs : List (String × JVal)} {k : String} {v : JVal}
    (hf : fieldsOk n fs = true) (hv : valOk n v = true) :
    fieldsOk n (fieldSet fs k v) = true := by
  induction fs with
  | nil => simp [fieldSet, fieldsOk, hv]
  | cons kv rest ih =>
      obtain ⟨k0, v0⟩ := kv
      simp only [fieldsOk, Bool.and_eq_true] at hf
      by_cases h : k0 = k <;>
        simp [fieldSet, fieldsOk, h, Bool.and_eq_true, hv, hf.1, hf.2, ih hf.2]

theorem lookupPath_ext {h h' : Heap} (he : HExt h h') (hw : h.wfB = true) :
    ∀ (p : List String) (v : JVal), valOk h.next v = true →
      lookupPath h' v p = lookupPath h v p := by
  intro p
  induction p with
  | nil => intro v _; cases v <;> simp [lookupPath]
  | cons k ks ih =>
      intro v hv
      cases v with
      | jint n => simp [lookupPath]
      | jstr s => simp [lookupPath]
      | jref a =>
          have ha : a < h.next := by
            simpa [valOk] using hv
          have hl : h'.lookup a = h.lookup a := he.2 a ha
          cases hg : h.lookup a with
          | none => simp [lookupPath, hg, hl]
          | some fs =>
              have hw' : memOk h.next h.mem = true := hw
              have hg' : memGet h.mem a = some fs := hg
              have hfs := (memGet_ok hw' hg').2
              cases hgf : fieldGet fs k with
              | none => simp [lookupPath, hg, hl, hgf]
              | some v' =>
                  simp only [lookupPath, hg, hl, hgf]
                  exact ih v' (fieldGet_ok hfs hgf)

/-- The two paths part ways at some index where both are still non-empty:
the subtree at `q` is not an ancestor, not the target, and not a descendant
of the written path `p`. -/
def divergesB : List String → List String → Bool
  | [], _ => false
  | _, [] => false
  | a :: as, b :: bs => if a == b then divergesB as bs else true

theorem produceAssign_main : ∀ (p : List String) (h : Heap) (s v : JVal) (h' : Heap)
    (s' : JVal), produceAssign h s p v = some (h', s') →
    HExt h h' ∧ (h.wfB = true → valOk h.next v = true →
      h'.wfB = true ∧ valOk h'.next s' = true) := by
  intro p
  induction p with
  | nil =>
      intro h s v h' s' hp
      cases s <;> simp [produceAssign] at hp
  | cons k rest ih =>
      intro h s v h' s' hp
      cases rest with
      | nil =>
          cases s with
          | jint n => simp [produceAssign] at hp
          | jstr t => simp [produceAssign] at hp
          | jref a =>
              simp only [produceAssign] at hp
              split at hp
              · rename_i fs hg
                cases hp
                refine ⟨hext_cons h _, ?_⟩
                intro hw hv
                have hfs := (memGet_ok (n := h.next) hw hg).2
                constructor
                · show memOk (h.next + 1) ((h.next, fieldSet fs k v) :: h.mem) = true
                  simp only [memOk, Bool.and_eq_true, decide_eq_true_eq]
                  exact ⟨⟨Nat.lt_succ_self _,
                    fieldsOk_mono (Nat.le_succ _) (fieldsOk_fieldSet hfs hv)⟩,
                    memOk_mono (Nat.le_succ _) hw⟩
                · simp [valOk]
              · cases hp
      | cons k2 rest2 =>
          cases s with
          | jint n => simp [produceAssign] at hp
          | jstr t => simp [produceAssign] at hp
          | jref a =>
              simp only [produceAssign] at hp
              split at hp
              · rename_i fs hg
                split at hp
                · rename_i cv hgf
                  split at hp
                  · rename_i pr h1 cv' hr
                    cases hp
                    have ihh := ih h cv v h1 cv' hr
                    refine ⟨HExt_trans ihh.1 (hext_cons h1 _), ?_⟩
                    intro hw hv
                    have hfs := (memGet_ok (n := h.next) hw hg).2
                    have hwf1 := ihh.2 hw hv
                    have hle : h.next ≤ h1.next := ihh.1.1
                    constructor
                    · show memOk (h1.next + 1) ((h1.next, fieldSet fs k cv') :: h1.mem) = true
                      have hm1 : memOk h1.next h1.mem = true := hwf1.1
                      simp only [memOk, Bool.and_eq_true, decide_eq_true_eq]
                      exact ⟨⟨Nat.lt_succ_self _,
                        fieldsOk_mono (Nat.le_succ _)
                          (fieldsOk_fieldSet (fieldsOk_mono hle hfs) hwf1.2)⟩,
                        memOk_mono (Nat.le_succ _) hm1⟩
                    · simp [valOk]
                  · cases hp
                · cases hp
              · cases hp

theorem produceAssign_stable : ∀ (p : List String) (h : Heap) (s v : JVal) (h' : Heap)
    (s' : JVal) (q : List String), h.wfB = true → valOk h.next v = true →
    produceAssign h s p v = some (h', s') → divergesB p q = true →
    lookupPath h' s' q = lookupPath h s q := by
  intro p
  induction p with
  | nil =>
      intro h s v h' s' q _ _ hp _
      cases s <;> simp [produceAssign] at hp
  | cons k rest ih =>
      intro h s v h' s' q hw hv hp hd
      cases q with
      | nil => simp [divergesB] at hd
      | cons k' q' =>
          simp only [divergesB] at hd
          cases s with
          | jint n => cases rest <;> simp [produceAssign] at hp
          | jstr t => cases rest <;> simp [produceAssign] at hp
          | jref a =>
              cases rest with
              | nil =>
                  have hkk : ¬ k = k' := by
                    by_contra he
                    simp [he, divergesB] at hd
                  simp only [produceAssign] at hp
                  split at hp
                  · rename_i fs hg
                    cases hp
                    have hfs := (memGet_ok (n := h.next) hw hg).2
                    have hnew : (⟨(h.next, fieldSet fs k v) :: h.mem, h.next + 1⟩ : Heap).lookup
                        h.next = some (fieldSet fs k v) := by
                      simp [Heap.lookup, memGet]
                    have hother := fieldGet_fieldSet_other fs (fun hh => hkk hh.symm) v
                    simp only [lookupPath, hnew, hother, hg]
                    cases hgf : fieldGet fs k' with
                    | none => simp
                    | some w =>
                        simp only []
                        exact lookupPath_ext (hext_cons h _) hw q' w (fieldGet_ok hfs hgf)
                  · cases hp
              | cons k2 rest2 =>
                  simp only [produceAssign] at hp
                  split at hp
                  · rename_i fs hg
                    split at hp
                    · rename_i cv hgf
                      split at hp
                      · rename_i pr h1 cv' hr
                        cases hp
                        have hfs := (memGet_ok (n := h.next) hw hg).2
                        have hcv : valOk h.next cv = true := fieldGet_ok hfs hgf
                        have hmain := produceAssign_main (k2 :: rest2) h cv v h1 cv' hr
                        have hwf1 := hmain.2 hw hv
                        have hnew : (⟨(h1.next, fieldSet fs k cv') :: h1.mem, h1.next + 1⟩ :
                            Heap).lookup h1.next = some (fieldSet fs k cv') := by
                          simp [Heap.lookup, memGet]
                        by_cases hke : k = k'
                        · subst hke
                          simp only [beq_self_eq_true, if_true] at hd
                          have hself := fieldGet_fieldSet_self fs k cv'
                          simp only [lookupPath, hnew, hself, hg, hgf]
                          have hih := ih h cv v h1 cv' q' hw hv hr hd
                          have hbridge := lookupPath_ext (h := h1)
                            (hext_cons h1 (fieldSet fs k cv')) hwf1.1 q' cv' hwf1.2
                          exact hbridge.trans hih
                        · have hother := fieldGet_fieldSet_other fs
                            (fun hh => hke hh.symm) cv'
                          simp only [lookupPath, hnew, hother, hg]
                          cases hgf' : fieldGet fs k' with
                          | none => simp
                          | some w =>
                              simp only []
                              exact lookupPath_ext
                                (HExt_trans hmain.1 (hext_cons h1 _)) hw q' w
                                (fieldGet_ok hfs hgf')
                      · cases hp
                    · cases hp
                  · cases hp

theorem memGet_setEntry_self : ∀ (mem : List (Nat × List (String × JVal))) (a : Nat)
    (fs0 fs : List (String × JVal)), memGet mem a = some fs0 →
    memGet (setEntry mem a fs) a = some fs := by
  intro mem
  induction mem with
  | nil => intro a fs0 fs hg; simp [memGet] at hg
  | cons e rest ih =>
      intro a fs0 fs hg
      rw [memGet] at hg
      by_cases he : e.1 = a
      · simp [setEntry, memGet, he]
      · have hne : ¬ ((e.1 == a) = true) := by simpa using he
        rw [if_neg hne] at hg
        rw [setEntry, if_neg hne, memGet, if_neg hne]
        exact ih a fs0 fs hg

theorem memGet_setEntry_other : ∀ (mem : List (Nat × List (String × JVal))) (a b : Nat)
    (fs : List (String × JVal)), b ≠ a → memGet (setEntry mem a fs) b = memGet mem b := by
  intro mem
  induction mem with
  | nil => intro a b fs _; simp [setEntry]
  | cons e rest ih =>
      intro a b fs hba
      by_cases he : e.1 = a
      · have hba' : ¬ (a == b) = true := by simpa using fun hh => hba hh.symm
        simp [setEntry, memGet, he, hba']
      · rw [setEntry, if_neg (by simpa using he), memGet, memGet]
        by_cases heb : e.1 = b
        · simp [heb]
        · rw [if_neg (by simpa using heb), if_neg (by simpa using heb)]
          exact ih a b fs hba

theorem shadowAssign_untouched : ∀ (wp : List String) (h : Heap) (a : Nat) (k : String)
    (v : JVal) (h2 : Heap) (l : List Nat), shadowAssign h a wp k v = some h2 →
    walkAddrs h a wp = some l → ∀ x, x ∉ l → h2.lookup x = h.lookup x := by
  intro wp
  induction wp with
  | nil =>
      intro h a k v h2 l hs hwk x hx
      simp only [walkAddrs] at hwk
      cases hwk
      simp only [shadowAssign] at hs
      split at hs
      · rename_i fs hg
        cases hs
        have hxa : x ≠ a := by simpa using hx
        exact memGet_setEntry_other h.mem a x (fieldSet fs k v) hxa
      · cases hs
  | cons s rest ih =>
      intro h a k v h2 l hs hwk x hx
      simp only [shadowAssign] at hs
      split at hs
      · rename_i fs hg
        split at hs
        · rename_i b hgf
          simp only [walkAddrs, hg, hgf] at hwk
          cases hw2 : walkAddrs h b rest with
          | none => rw [hw2] at hwk; cases hwk
          | some l' =>
              rw [hw2] at hwk
              cases hwk
              have hx' : x ∉ l' := by
                intro hmem
                exact hx (List.mem_cons_of_mem a hmem)
              exact ih h b k v h2 l' hs hw2 x hx'
        · cases hs
      · cases hs

theorem shadowAssign_read : ∀ (wp : List String) (h : Heap) (a : Nat) (k : String)
    (v : JVal) (h2 : Heap) (l : List Nat), shadowAssign h a wp k v = some h2 →
    walkAddrs h a wp = some l → l.Nodup →
    lookupPath h2 (JVal.jref a) (wp ++ [k]) = some v := by
  intro wp
  induction wp with
  | nil =>
      intro h a k v h2 l hs hwk hnd
      simp only [shadowAssign] at hs
      split at hs
      · rename_i fs hg
        cases hs
        have hself : (Heap.setE h a (fieldSet fs k v)).lookup a = some (fieldSet fs k v) :=
          memGet_setEntry_self h.mem a fs (fieldSet fs k v) hg
        simp [lookupPath, hself, fieldGet_fieldSet_self]
      · cases hs
  | cons s rest ih =>
      intro h a k v h2 l hs hwk hnd
      simp only [shadowAssign] at hs
      split at hs
      · rename_i fs hg
        split at hs
        · rename_i b hgf
          simp only [walkAddrs, hg, hgf] at hwk
          cases hw2 : walkAddrs h b rest with
          | none => rw [hw2] at hwk; cases hwk
          | some l' =>
              rw [hw2] at hwk
              cases hwk
              rw [List.nodup_cons] at hnd
              have hla : h2.lookup a = h.lookup a :=
                shadowAssign_untouched rest h b k v h2 l' hs hw2 a hnd.1
              have htail := ih h b k v h2 l' hs hw2 hnd.2
              simp only [List.cons_append, lookupPath, hla, hg, hgf]
              exact htail
        · cases hs
      · cases hs

theorem applyRecs_append : ∀ (rs1 rs2 : List MutRecord) (h : Heap) (s : JVal),
    applyRecs h s (rs1 ++ rs2) =
      (match applyRecs h s rs1 with
       | some p => applyRecs p.1 p.2 rs2
       | none => none) := by
  intro rs1
  induction rs1 with
  | nil => intro rs2 h s; simp [applyRecs]
  | cons r rest ih =>
      intro rs2 h s
      simp only [List.cons_append, applyRecs]
      cases hp : produceAssign h s r.path r.value with
      | none => simp
      | some p => simp [ih rs2 p.1 p.2]

/-- No action in the list is a root replacement (its stripped path is
non-empty). -/
def opsNonRoot : List Op → Bool
  | [] => true
  | Op.fieldWrite wp k _ :: rest => !(stripSet (wp ++ [k])).isEmpty && opsNonRoot rest
  | Op.throwErr :: rest => opsNonRoot rest

theorem setTrap_keep (f : Nat) (c : Container) (wp : List String) (k : String) (v : JVal)
    (hb : c.batching = true) (hnr : (stripSet (wp ++ [k])).isEmpty = false) :
    (setTrap f c wp k v).1.batching = true ∧ (setTrap f c wp k v).1.state = c.state := by
  simp only [setTrap]
  split
  · exact ⟨hb, rfl⟩
  · rename_i h1 v' hc
    split
    · exact ⟨hb, rfl⟩
    · rename_i h2 hs
      simp [mutationCallback, hnr, hb]

theorem runOps_keep (f : Nat) : ∀ (ops : List Op) (c : Container), c.batching = true →
    opsNonRoot ops = true →
    (runOps f c ops).1.batching = true ∧ (runOps f c ops).1.state = c.state := by
  intro ops
  induction ops with
  | nil => intro c hb _; exact ⟨hb, rfl⟩
  | cons op rest ih =>
      intro c hb hnr
      cases op with
      | throwErr =>
          rw [opsNonRoot] at hnr
          constructor
          · simpa [runOps] using hb
          · simp [runOps]
      | fieldWrite wp k v =>
          rw [opsNonRoot] at hnr
          simp only [Bool.and_eq_true, Bool.not_eq_true'] at hnr
          have hk := setTrap_keep f c wp k v hb hnr.1
          rw [runOps]
          cases hst : setTrap f c wp k v with
          | mk c' e =>
              rw [hst] at hk
              cases e with
              | none =>
                  have hrec := ih c' hk.1 hnr.2
                  exact ⟨hrec.1, hrec.2.trans hk.2⟩
              | some err => exact ⟨hk.1, hk.2⟩

theorem processBatch_batching (c : Container) : (processBatch c).1.batching = c.batching := by
  rw [processBatch]
  split
  · rfl
  · cases ha : applyRecs c.heap c.state c.queue with
    | none => rfl
    | some p => rfl

/-- Concrete scenario heaps and containers used by the claim theorems below. -/
def hCount : Heap := ⟨[(0, [("count", JVal.jint 0)])], 1⟩

def cCnt0 : Container := (mkContainer 20 hCount (JVal.jref 0) true).getD dummyContainer

def cCnt1 : Container := (setTrap 20 cCnt0 ["set"] "count" (JVal.jint 1)).1

def cCnt2 : Container := (setTrap 20 cCnt1 ["set"] "count" (JVal.jint 2)).1

def cCnt3 : Container := (setBatchUpdate cCnt2 false).1

def cCnt4 : Container := (setTrap 20 cCnt3 ["set"] "count" (JVal.jint 3)).1

def hRace : Heap := ⟨[(0, [("count", JVal.jint 0), ("user", JVal.jref 1)]),
  (1, [("name", JVal.jstr "Alice")]),
  (2, [("count", JVal.jint 10), ("user", JVal.jref 3)]),
  (3, [("name", JVal.jstr "Bob")])], 4⟩

def cRace0 : Container := (mkContainer 20 hRace (JVal.jref 0) true).getD dummyContainer

def cRace1 : Container := (readThrough cRace0 ["set", "user"]).1

def cRace2 : Container := (setTrap 20 cRace1 [] "set" (JVal.jref 2)).1

def cRace3 : Container := (setTrap 20 cRace2 ["set", "user"] "name" (JVal.jstr "Charlie")).1

def cRace4 : Container := (processBatch cRace3).1

def hC1x : Heap := ⟨[(0, [("a", JVal.jint 0), ("b", JVal.jint 0)]), (1, [("a", JVal.jint 5)])], 2⟩

def cC1x : Container := (mkContainer 20 hC1x (JVal.jref 0) false).getD dummyContainer

def opsC1x : List Op := [Op.fieldWrite [] "set" (JVal.jref 1), Op.throwErr]

def hAB : Heap := ⟨[(0, [("a", JVal.jint 0), ("b", JVal.jint 0)])], 1⟩

def cAB : Container := (mkContainer 20 hAB (JVal.jref 0) false).getD dummyContainer

def opsAB : List Op := [Op.fieldWrite ["set"] "a" (JVal.jint 1),
  Op.fieldWrite ["set"] "b" (JVal.jint 1), Op.throwErr]

def hC4 : Heap := ⟨[(0, [("a", JVal.jint 0)]), (1, [("x", JVal.jint 0)])], 2⟩

def cC4a : Container := (mkContainer 20 hC4 (JVal.jref 0) false).getD dummyContainer

def cC4w : Container := (setTrap 20 cC4a ["set"] "b" (JVal.jref 1)).1

def cBad : Container := ⟨⟨[(0, [("set", JVal.jref 1)]), (1, [("a", JVal.jref 2)]),
  (2, []), (3, [("a", JVal.jint 5)])], 4⟩, 0, JVal.jref 3, [], false, [0]⟩

def cPB : Container := ⟨⟨[(0, [("a", JVal.jint 5)])], 1⟩, 0, JVal.jref 0,
  [⟨["a", "x"], JVal.jint 7⟩], true, []⟩

def hC9 : Heap := ⟨[(0, [("a", JVal.jint 0)]), (1, [("x", JVal.jint 0)])], 2⟩

def cC9 : Container := (mkContainer 20 hC9 (JVal.jref 0) true).getD dummyContainer

def c9cl : Heap × JVal := (structuredClone 20 cC9.heap (JVal.jref 1)).getD (cC9.heap, JVal.jint 0)

def h9b : Heap := (shadowAssign c9cl.1 cC9.shadowRoot ["set"] "b" c9cl.2).getD c9cl.1

def c7res : Heap × JVal :=
  (produceAssign hRace (JVal.jref 0) ["user", "name"] (JVal.jstr "X")).getD (hRace, JVal.jint 0)

/-- C1 (amended): for a `batch` callback consisting of intercepted field
writes none of which is a root replacement, plus a possible throw: if the
callback throws, `batchScoped` restores the saved mode and queue exactly,
re-raises the error unchanged, and the published snapshot is exactly the
entry snapshot — no field-write mutation performed inside the callback is
applied; if the callback returns normally, exactly the queue accumulated
during the callback is flushed by `processBatch` and the saved mode and
queue are then restored.  (A root replacement inside the callback is
published immediately and is not rolled back, which is why the claim as
stated fails; see the counterexample.) -/
theorem spec_C1 (f : Nat) (c : Container) (ops : List Op) (c2 : Container)
    (hnr : opsNonRoot ops = true) :
    (∀ e, runOps f { c with batching := true, queue := [] } ops = (c2, some e) →
      batchScoped f c ops = ({ c2 with batching := c.batching, queue := c.queue }, some e) ∧
      c2.state = c.state) ∧
    (runOps f { c with batching := true, queue := [] } ops = (c2, none) →
      batchScoped f c ops =
        ({ (processBatch c2).1 with batching := c.batching, queue := c.queue },
          (processBatch c2).2)) := by
  constructor
  · intro e hrun
    have hkeep := runOps_keep f ops { c with batching := true, queue := [] } rfl hnr
    rw [hrun] at hkeep
    exact ⟨by simp [batchScoped, hrun], hkeep.2⟩
  · intro hrun
    simp [batchScoped, hrun]

/-- C1 witness: the amended theorem applied to a concrete batch over
`{a: 0, b: 0}` whose callback writes `a := 1`, `b := 1` and then throws:
the error is re-raised, mode and queue are restored, and the snapshot is
the entry snapshot. -/
theorem spec_C1_witness :
    batchScoped 20 cAB opsAB =
      ({ (runOps 20 { cAB with batching := true, queue := [] } opsAB).1 with
          batching := cAB.batching, queue := cAB.queue }, some ContErr.userFail) ∧
    (runOps 20 { cAB with batching := true, queue := [] } opsAB).1.state = cAB.state :=
  (spec_C1 20 cAB opsAB (runOps 20 { cAB with batching := true, queue := [] } opsAB).1
    (by decide)).1 ContErr.userFail (by decide)

/-- C1 counterexample: a `batch` callback that performs a root replacement
(`set := {a: 5}`) and then throws leaves the published snapshot replaced —
`a` reads 5 afterwards, not the entry value 0 — so "none of the mutations
performed inside fn are applied to the published snapshot" is false as
stated, even though mode and queue are restored and the error is re-raised. -/
theorem spec_C1_cex :
    (batchScoped 20 cC1x opsC1x).2 = some ContErr.userFail ∧
    lookupPath cC1x.heap cC1x.state ["a"] = some (JVal.jint 0) ∧
    lookupPath (batchScoped 20 cC1x opsC1x).1.heap (batchScoped 20 cC1x opsC1x).1.state
      ["a"] = some (JVal.jint 5) ∧
    (batchScoped 20 cC1x opsC1x).1.batching = cC1x.batching ∧
    (batchScoped 20 cC1x opsC1x).1.queue = cC1x.queue := by
  decide

/-- C2: a write whose stripped path is empty (root replacement) is never
queued in either mode: the wrapper cache is reset to empty, the raw value is
published synchronously as the new snapshot, and the queue is left exactly
as it was.  The concrete race conjuncts replay the spec's scenario: while
batching, replacing the root with `{count: 10, user: {name: "Bob"}}` shows
the new root immediately, a following queued write `user.name := "Charlie"`
stays invisible until the flush, and the flush applies it against the new
root. -/
theorem spec_C2 (f : Nat) (c : Container) (v : JVal) (h1 : Heap) (v' : JVal) (h2 : Heap)
    (hc : structuredClone f c.heap v = some (h1, v'))
    (hs : shadowAssign h1 c.shadowRoot [] "set" v' = some h2) :
    setTrap f c [] "set" v = ({ c with heap := h2, cache := [], state := v }, none) ∧
    cRace1.cache ≠ [] ∧ cRace2.cache = [] ∧ cRace2.queue = cRace1.queue ∧
    cRace2.state = JVal.jref 2 ∧
    lookupPath cRace2.heap cRace2.state ["count"] = some (JVal.jint 10) ∧
    lookupPath cRace2.heap cRace2.state ["user", "name"] = some (JVal.jstr "Bob") ∧
    cRace3.queue = [⟨["user", "name"], JVal.jstr "Charlie"⟩] ∧
    lookupPath cRace3.heap cRace3.state ["user", "name"] = some (JVal.jstr "Bob") ∧
    lookupPath cRace4.heap cRace4.state ["count"] = some (JVal.jint 10) ∧
    lookupPath cRace4.heap cRace4.state ["user", "name"] = some (JVal.jstr "Charlie") := by
  refine ⟨?_, by decide, by decide, by decide, by decide, by decide, by decide, by decide,
    by decide, by decide, by decide⟩
  simp [setTrap, hc, hs, mutationCallback, stripSet]

def c2cl : Heap × JVal :=
  (structuredClone 20 cRace1.heap (JVal.jref 2)).getD (cRace1.heap, JVal.jint 0)

def c2sh : Heap := (shadowAssign c2cl.1 cRace1.shadowRoot [] "set" c2cl.2).getD c2cl.1

/-- C2 witness: the general root-replacement equation instantiated on the
concrete race container. -/
theorem spec_C2_witness :
    setTrap 20 cRace1 [] "set" (JVal.jref 2) =
      ({ cRace1 with heap := c2sh, cache := [], state := JVal.jref 2 }, none) :=
  (spec_C2 20 cRace1 (JVal.jref 2) c2cl.1 c2cl.2 c2sh (by decide) (by decide)).1

/-- C3: `setBatchUpdate false` (the code's name for `enableBatch(false)`)
while batching flushes the whole queue in one produce transaction via
`processBatch` and transitions to Immediate mode; a write while not batching
is applied immediately.  Concretely: queuing `count := 1` then `count := 2`
and switching batching off yields `count = 2` with an empty queue, and a
subsequent write `count := 3` is applied immediately. -/
theorem spec_C3 :
    (∀ c : Container, c.batching = true →
      setBatchUpdate c false = processBatch { c with batching := false }) ∧
    (∀ c : Container, (setBatchUpdate c false).1.batching = false) ∧
    (∀ (c : Container) (p : List String) (v : JVal) (h' : Heap) (s' : JVal),
      c.batching = false → (stripSet p).isEmpty = false →
      produceAssign c.heap c.state (stripSet p) v = some (h', s') →
      mutationCallback c p v = ({ c with heap := h', state := s' }, none)) ∧
    lookupPath cCnt2.heap cCnt2.state ["count"] = some (JVal.jint 0) ∧
    cCnt2.queue = [⟨["count"], JVal.jint 1⟩, ⟨["count"], JVal.jint 2⟩] ∧
    cCnt2.batching = true ∧
    lookupPath cCnt3.heap cCnt3.state ["count"] = some (JVal.jint 2) ∧
    cCnt3.batching = false ∧ cCnt3.queue = [] ∧
    lookupPath cCnt4.heap cCnt4.state ["count"] = some (JVal.jint 3) := by
  refine ⟨?_, ?_, ?_, by decide, by decide, by decide, by decide, by decide, by decide,
    by decide⟩
  · intro c hb
    simp [setBatchUpdate, hb]
  · intro c
    cases hb : c.batching
    · simp [setBatchUpdate, hb]
    · simp [setBatchUpdate, hb, processBatch_batching]
  · intro c p v h' s' hb hnr hp
    simp [mutationCallback, hnr, hb, hp]

/-- C3 witness: the flush-on-disable equation and the mode transition
instantiated on the concrete two-record batch container. -/
theorem spec_C3_witness :
    setBatchUpdate cCnt2 false = processBatch { cCnt2 with batching := false } ∧
    (setBatchUpdate cCnt2 false).1.batching = false :=
  ⟨spec_C3.1 cCnt2 (by decide), spec_C3.2.1 cCnt2⟩

/-- C4 (amended): an intercepted field write stores a defensive deep clone of
the value into the shadow target in place, but the mutation record handed to
the container — queued while batching, or applied immediately — carries the
caller's original value, not the clone; mutating the caller's original object
after the write can therefore change the stored snapshot value (see the
counterexample), while the shadow copy is isolated. -/
theorem spec_C4 (f : Nat) (c : Container) (wp : List String) (k : String) (v : JVal)
    (h1 : Heap) (v' : JVal) (h2 : Heap)
    (hc : structuredClone f c.heap v = some (h1, v'))
    (hs : shadowAssign h1 c.shadowRoot wp k v' = some h2) :
    setTrap f c wp k v = mutationCallback { c with heap := h2 } (wp ++ [k]) v ∧
    ((stripSet (wp ++ [k])).isEmpty = false → c.batching = true →
      setTrap f c wp k v =
        ({ c with heap := h2, queue := c.queue ++ [⟨stripSet (wp ++ [k]), v⟩] }, none)) := by
  constructor
  · simp [setTrap, hc, hs]
  · intro hnr hb
    simp [setTrap, hc, hs, mutationCallback, hnr, hb]

def c4cl : Heap × JVal :=
  (structuredClone 20 cC4a.heap (JVal.jref 1)).getD (cC4a.heap, JVal.jint 0)

def c4sh : Heap := (shadowAssign c4cl.1 cC4a.shadowRoot ["set"] "b" c4cl.2).getD c4cl.1

/-- C4 witness: the amended write equation instantiated on a concrete
container and a caller-owned object value. -/
theorem spec_C4_witness :
    setTrap 20 cC4a ["set"] "b" (JVal.jref 1) =
      mutationCallback { cC4a with heap := c4sh } (["set"] ++ ["b"]) (JVal.jref 1) :=
  (spec_C4 20 cC4a ["set"] "b" (JVal.jref 1) c4cl.1 c4cl.2 c4sh (by decide) (by decide)).1

/-- C4 counterexample: in Immediate mode, writing the caller's object at
address 1 into field `b` succeeds, and the snapshot then stores the caller's
reference: mutating the original afterwards (`x := 99`) changes the stored
snapshot value from 0 to 99, so the value retained for the snapshot is not a
defensive deep clone (the shadow copy, by contrast, still reads 0). -/
theorem spec_C4_cex :
    (setTrap 20 cC4a ["set"] "b" (JVal.jref 1)).2 = none ∧
    lookupPath cC4w.heap cC4w.state ["b", "x"] = some (JVal.jint 0) ∧
    lookupPath (extMut cC4w.heap 1 "x" (JVal.jint 99)) cC4w.state ["b", "x"] =
      some (JVal.jint 99) ∧
    lookupPath cC4w.heap (JVal.jref cC4w.shadowRoot) ["set", "b", "x"] =
      some (JVal.jint 0) ∧
    lookupPath (extMut cC4w.heap 1 "x" (JVal.jint 99)) (JVal.jref cC4w.shadowRoot)
      ["set", "b", "x"] = some (JVal.jint 0) := by
  decide

/-- C5 (amended): at construction the shadow root `{set: ...}` is built from
a defensive deep clone of the initial value, but the snapshot published by
`useState(obj)` is the caller's initial object itself, with no clone;
mutating the initial object after construction can therefore change the
published snapshot (see the counterexample). -/
theorem spec_C5 (f : Nat) (h : Heap) (obj : JVal) (b : Bool) (h1 : Heap) (obj' : JVal)
    (hc : structuredClone f h obj = some (h1, obj')) :
    mkContainer f h obj b =
      some { heap := ⟨(h1.next, [("set", obj')]) :: h1.mem, h1.next + 1⟩,
             shadowRoot := h1.next, state := obj, queue := [], batching := b,
             cache := [h1.next] } := by
  simp [mkContainer, hc]

def c5cl : Heap × JVal := (structuredClone 20 hC4 (JVal.jref 0)).getD (hC4, JVal.jint 0)

/-- C5 witness: the construction equation instantiated on a concrete heap,
showing `state` is the raw initial reference while the shadow holds the
clone. -/
theorem spec_C5_witness :
    mkContainer 20 hC4 (JVal.jref 0) false =
      some { heap := ⟨(c5cl.1.next, [("set", c5cl.2)]) :: c5cl.1.mem, c5cl.1.next + 1⟩,
             shadowRoot := c5cl.1.next, state := JVal.jref 0, queue := [],
             batching := false, cache := [c5cl.1.next] } :=
  spec_C5 20 hC4 (JVal.jref 0) false c5cl.1 c5cl.2 (by decide)

/-- C5 counterexample: the snapshot published at construction aliases the
initial object at address 0; mutating that object afterwards (`a := 42`)
changes the published snapshot from 0 to 42, so the published snapshot was
not created from a defensive deep clone. -/
theorem spec_C5_cex :
    lookupPath cC4a.heap cC4a.state ["a"] = some (JVal.jint 0) ∧
    lookupPath (extMut cC4a.heap 0 "a" (JVal.jint 42)) cC4a.state ["a"] =
      some (JVal.jint 42) := by
  decide

/-- C6: a flush applies the queued records strictly in production order with
no reordering, coalescing or deduplication: applying a concatenation equals
applying the first part and then the second on the intermediate result, and
`processBatch` applies exactly the queue, in order, in one transaction.
Concretely, with queue `count := 1`, `count := 2` the first record alone
yields 1 and the full queue yields 2 — the later record wins only by
overwriting in application order. -/
theorem spec_C6 :
    (∀ (rs1 rs2 : List MutRecord) (h : Heap) (s : JVal),
      applyRecs h s (rs1 ++ rs2) =
        (match applyRecs h s rs1 with
         | some p => applyRecs p.1 p.2 rs2
         | none => none)) ∧
    (∀ (c : Container) (h' : Heap) (s' : JVal), c.queue ≠ [] →
      applyRecs c.heap c.state c.queue = some (h', s') →
      processBatch c = ({ c with queue := [], heap := h', state := s' }, none)) ∧
    (applyRecs cCnt2.heap cCnt2.state [⟨["count"], JVal.jint 1⟩]).map
      (fun p => lookupPath p.1 p.2 ["count"]) = some (some (JVal.jint 1)) ∧
    (applyRecs cCnt2.heap cCnt2.state cCnt2.queue).map
      (fun p => lookupPath p.1 p.2 ["count"]) = some (some (JVal.jint 2)) := by
  refine ⟨applyRecs_append, ?_, by decide, by decide⟩
  intro c h' s' hq hrec
  have hne : c.queue.isEmpty = false := by
    cases hql : c.queue with
    | nil => exact absurd hql hq
    | cons r rs => simp [hql]
  simp [processBatch, hne, hrec]

def c6res : Heap × JVal :=
  (applyRecs cCnt2.heap cCnt2.state cCnt2.queue).getD (cCnt2.heap, JVal.jint 0)

/-- C6 witness: the flush equation instantiated on the concrete two-record
queue. -/
theorem spec_C6_witness :
    processBatch cCnt2 = ({ cCnt2 with queue := [], heap := c6res.1, state := c6res.2 },
      none) :=
  spec_C6.2.1 cCnt2 c6res.1 c6res.2 (by decide) (by decide)

/-- C7: referential stability — on a well-formed heap, an applied field write
leaves every subtree whose path diverges from the written path reading the
very same value (the same reference, for object subtrees) before and after
the produce transaction; only the nodes along the written path are replaced
by fresh allocations. -/
theorem spec_C7 (p : List String) (h : Heap) (s v : JVal) (h' : Heap) (s' : JVal)
    (q : List String) (hw : h.wfB = true) (hv : valOk h.next v = true)
    (hp : produceAssign h s p v = some (h', s')) (hd : divergesB p q = true) :
    lookupPath h' s' q = lookupPath h s q :=
  produceAssign_stable p h s v h' s' q hw hv hp hd

/-- C7 witness: writing `user.name` leaves the `count` subtree reference-equal
(the very same lookup result) on a concrete heap. -/
theorem spec_C7_witness :
    lookupPath c7res.1 c7res.2 ["count"] = lookupPath hRace (JVal.jref 0) ["count"] :=
  spec_C7 ["user", "name"] hRace (JVal.jref 0) (JVal.jstr "X") c7res.1 c7res.2 ["count"]
    (by decide) (by decide) (by decide) (by decide)

/-- C8: a PatchPathFailure is not recovered internally: when an intercepted
write or a flush reports it, the error is returned synchronously to the
caller of the triggering operation, and the published snapshot (and, for a
write, the queue and the mode flag) are left exactly as they were — never
partially advanced. -/
theorem spec_C8 :
    (∀ (f : Nat) (c : Container) (wp : List String) (k : String) (v : JVal),
      (setTrap f c wp k v).2 = some ContErr.pathFail →
      (setTrap f c wp k v).1.state = c.state ∧ (setTrap f c wp k v).1.queue = c.queue ∧
      (setTrap f c wp k v).1.batching = c.batching) ∧
    (∀ c : Container, (processBatch c).2 = some ContErr.pathFail →
      (processBatch c).1.state = c.state ∧ (processBatch c).1.batching = c.batching) := by
  constructor
  · intro f c wp k v he
    simp only [setTrap] at he ⊢
    cases hc : structuredClone f c.heap v with
    | none => simp [hc] at he
    | some pr =>
        obtain ⟨h1, v'⟩ := pr
        simp only [hc] at he ⊢
        cases hs : shadowAssign h1 c.shadowRoot wp k v' with
        | none => simp [hs]
        | some h2 =>
            simp only [hs] at he ⊢
            simp only [mutationCallback] at he ⊢
            by_cases hroot : (stripSet (wp ++ [k])).isEmpty
            · simp [hroot] at he
            · simp only [Bool.not_eq_true] at hroot
              cases hb : c.batching with
              | true => simp [hroot, hb] at he
              | false =>
                  cases hp : produceAssign h2 c.state (stripSet (wp ++ [k])) v with
                  | some r => simp [hroot, hb, hp] at he
                  | none => simp [hroot, hb, hp]
  · intro c he
    simp only [processBatch] at he ⊢
    by_cases hq : c.queue.isEmpty
    · simp [hq] at he
    · simp only [Bool.not_eq_true] at hq
      cases ha : applyRecs c.heap c.state c.queue with
      | some p => simp [hq, ha] at he
      | none => simp [hq, ha]

/-- C8 witness: a write whose snapshot patch fails (the snapshot's `a` is a
primitive while the shadow still walks) leaves snapshot, queue and mode
untouched, and a failing flush leaves the snapshot untouched. -/
theorem spec_C8_witness :
    ((setTrap 20 cBad ["set", "a"] "x" (JVal.jint 7)).1.state = cBad.state ∧
      (setTrap 20 cBad ["set", "a"] "x" (JVal.jint 7)).1.queue = cBad.queue ∧
      (setTrap 20 cBad ["set", "a"] "x" (JVal.jint 7)).1.batching = cBad.batching) ∧
    ((processBatch cPB).1.state = cPB.state ∧
      (processBatch cPB).1.batching = cPB.batching) :=
  ⟨spec_C8.1 20 cBad ["set", "a"] "x" (JVal.jint 7) (by decide),
   spec_C8.2 cPB (by decide)⟩

/-- C9: an intercepted field write mutates the shadow object in place with
the structured clone of the assigned value before any batching decision is
made: a subsequent read of the same wrapper path returns that newly written
(cloned) value in both modes, while in Batching mode the published snapshot
is untouched and the record is only appended to the queue. -/
theorem spec_C9 (f : Nat) (c : Container) (wp : List String) (k : String) (v : JVal)
    (h1 : Heap) (v' : JVal) (h2 : Heap) (l : List Nat)
    (hc : structuredClone f c.heap v = some (h1, v'))
    (hs : shadowAssign h1 c.shadowRoot wp k v' = some h2)
    (hwk : walkAddrs h1 c.shadowRoot wp = some l) (hnd : l.Nodup)
    (hnr : (stripSet (wp ++ [k])).isEmpty = false) :
    lookupPath h2 (JVal.jref c.shadowRoot) (wp ++ [k]) = some v' ∧
    (c.batching = true →
      setTrap f c wp k v =
        ({ c with heap := h2, queue := c.queue ++ [⟨stripSet (wp ++ [k]), v⟩] }, none)) ∧
    (c.batching = false → h2.wfB = true → valOk h2.next (JVal.jref c.shadowRoot) = true →
      ∀ (h3 : Heap) (s' : JVal),
        produceAssign h2 c.state (stripSet (wp ++ [k])) v = some (h3, s') →
        setTrap f c wp k v = ({ c with heap := h3, state := s' }, none) ∧
        lookupPath h3 (JVal.jref c.shadowRoot) (wp ++ [k]) = some v') := by
  have hread := shadowAssign_read wp h1 c.shadowRoot k v' h2 l hs hwk hnd
  refine ⟨hread, ?_, ?_⟩
  · intro hb
    simp [setTrap, hc, hs, mutationCallback, hnr, hb]
  · intro hb hw2 hvr h3 s' hp
    constructor
    · simp [setTrap, hc, hs, mutationCallback, hnr, hb, hp]
    · have hxt := (produceAssign_main (stripSet (wp ++ [k])) h2 c.state v h3 s' hp).1
      rw [lookupPath_ext hxt hw2 (wp ++ [k]) (JVal.jref c.shadowRoot) hvr]
      exact hread

/-- C9 witness: a concrete batching write of an object value — the shadow
read of the written path returns the clone while the snapshot ref is
untouched and the record is queued with the raw value. -/
theorem spec_C9_witness :
    lookupPath h9b (JVal.jref cC9.shadowRoot) (["set"] ++ ["b"]) = some c9cl.2 ∧
    setTrap 20 cC9 ["set"] "b" (JVal.jref 1) =
      ({ cC9 with
          heap := h9b,
          queue := cC9.queue ++ [⟨stripSet (["set"] ++ ["b"]), JVal.jref 1⟩] }, none) := by
  have hmain := spec_C9 20 cC9 ["set"] "b" (JVal.jref 1) c9cl.1 c9cl.2 h9b [3, 2]
    (by decide) (by decide) (by decide) (by decide) (by decide)
  exact ⟨hmain.1, hmain.2.1 (by decide)⟩

/-- C10: `processBatch` with an empty queue returns without any state
transition at all; in every other case the queue is copied and cleared
before application, so after it returns — success or patch failure — the
queue is empty and the removed records are never retried. -/
theorem spec_C10 (c : Container) :
    (c.queue = [] → processBatch c = (c, none)) ∧
    (processBatch c).1.queue = [] ∧
    (c.queue ≠ [] → applyRecs c.heap c.state c.queue = none →
      processBatch c = ({ c with queue := [] }, some ContErr.pathFail)) := by
  refine ⟨?_, ?_, ?_⟩
  · intro hq
    simp [processBatch, hq]
  · cases hq : c.queue with
    | nil => simp [processBatch, hq]
    | cons r rs =>
        cases ha : applyRecs c.heap c.state (r :: rs) with
        | some p => simp [processBatch, hq, ha]
        | none => simp [processBatch, hq, ha]
  · intro hq ha
    have hne : c.queue.isEmpty = false := by
      cases hql : c.queue with
      | nil => exact absurd hql hq
      | cons r rs => simp [hql]
    simp [processBatch, hne, ha]

/-- C10 witness: the no-transition case on a fresh container with an empty
queue, and the queue-cleared-despite-failure case on a failing queue. -/
theorem spec_C10_witness :
    processBatch cC9 = (cC9, none) ∧
    processBatch cPB = ({ cPB with queue := [] }, some ContErr.pathFail) :=
  ⟨(spec_C10 cC9).1 (by decide), (spec_C10 cPB).2.2 (by decide) (by decide)⟩
